import Mathlib

set_option maxRecDepth 10000

/-!
Shallow embedding of `src/decoder.go` (package `drum`), a decoder for the
"SPLICE" drum-machine binary format.

Modelling conventions:

* The input file is a `List Nat` of byte values (each expected `< 256`);
  `DecodeFile` opens the file at a path, so the byte source is a regular
  file: a single `Read(buf)` call returns `min (len buf) (bytes remaining)`
  bytes with no error, except that a read of a non-empty buffer at
  end-of-file returns `(0, io.EOF)` and a read of an empty buffer returns
  `(0, nil)`.  Bytes of `buf` beyond the count returned keep their zero
  initialisation (Go slices from `make` are zeroed).
* `binary.Read` uses `io.ReadFull` semantics: it fails with an I/O error
  unless the full requested byte count is available.
* Go strings are byte strings; they are modelled as `List Nat`.
* The tempo is stored as the little-endian 32-bit pattern read from the
  file (a `Nat`); `f32val` gives the exact rational value of that IEEE-754
  bit pattern when it is finite.
* The remaining-byte counter is a Go `int64`: every subtraction on it is
  two's-complement wrapping arithmetic, modelled by `wrap64` applied to
  each intermediate result.
* Results: `formatError got` models the `fmt.Errorf("Invalid file header,
  expected SPLICE, got %s", header)` error, carrying the header bytes that
  the message interpolates; `ioErr` models any propagated I/O error;
  `panicked` models a Go run-time panic (`make([]byte, n)` with `n < 0`).
-/

/-- Signed interpretation of an unsigned `w`-bit value (two's complement). -/
def sint (w : Nat) (n : Nat) : Int :=
  if n < 2 ^ (w - 1) then (n : Int) else (n : Int) - 2 ^ w

/-- Big-endian byte list to natural number. -/
def beNat (l : List Nat) : Nat :=
  l.foldl (fun acc b => acc * 256 + b) 0

/-- Little-endian byte list to natural number. -/
def leNat (l : List Nat) : Nat :=
  beNat l.reverse

/-- Zero-pad a byte list on the right to length `k` (a fresh Go buffer from
`make([]byte, k)` is zeroed, so bytes not overwritten by a short read stay `0`). -/
def padZero (k : Nat) (l : List Nat) : List Nat :=
  l ++ List.replicate (k - l.length) 0

/-- `io.ReadFull` semantics used by `binary.Read`: succeed with exactly `k`
bytes, or fail (short read / EOF) when fewer than `k` bytes remain. -/
def readFull (k : Nat) (s : List Nat) : Option (List Nat × List Nat) :=
  if k ≤ s.length then some (s.take k, s.drop k) else none

/-- Two's-complement wraparound of Go `int64` arithmetic: reduce a value
into `[-2^63, 2^63)` the way an overflowing Go `int64` operation does. -/
def wrap64 (x : Int) : Int := (x + 2 ^ 63) % 2 ^ 64 - 2 ^ 63

/-- `bytes.Trim(buf, "\x00")`: remove the leading and the trailing run of
zero bytes (Go's `bytes.Trim` trims from both ends). -/
def trimZeros (l : List Nat) : List Nat :=
  ((l.dropWhile (· == 0)).reverse.dropWhile (· == 0)).reverse

/-- Exact value of a finite IEEE-754 single-precision bit pattern, as a
rational; `none` for the `Inf`/`NaN` exponent. -/
def f32val (bits : Nat) : Option ℚ :=
  let sign : Nat := bits / 2 ^ 31 % 2
  let exp : Nat := bits / 2 ^ 23 % 2 ^ 8
  let frac : Nat := bits % 2 ^ 23
  if exp = 255 then none
  else
    let mag : ℚ :=
      if exp = 0 then (frac : ℚ) * (2 : ℚ) ^ (-(149 : Int))
      else ((2 ^ 23 + frac : ℕ) : ℚ) * (2 : ℚ) ^ ((exp : Int) - 150)
    some (if sign = 1 then -mag else mag)

/-- `Track` of `decoder.go`: ID, name and the 16 step flags
(`Steps` is `[16]bool` in Go; the length-16 invariant is proved, not built in). -/
structure Track where
  ID : Int
  Name : List Nat
  Steps : List Bool
  deriving Repr, DecidableEq

/-- `Pattern` of `decoder.go`; `Tempo` holds the 32-bit pattern read from
the file. -/
structure Pattern where
  Version : List Nat
  Tempo : Nat
  Tracks : List Track
  deriving Repr, DecidableEq

/-- The 6 signature bytes `"SPLICE"`. -/
def SPLICE : List Nat := [83, 80, 76, 73, 67, 69]

/-- `readHeader`: a single `file.Read` of a 6-byte buffer.  At EOF the Go
function returns `("", err)`; since `DecodeFile` drops the error, the
observable result is the empty byte string with nothing consumed.  On a
short read (`0 < n < 6`, no error for a regular file) the unwritten buffer
bytes stay zero. -/
def readHeader (s : List Nat) : List Nat × List Nat :=
  if s.isEmpty then ([], s) else (padZero 6 (s.take 6), s.drop 6)

/-- `readContentSize`: `binary.Read` of a big-endian `int64`. -/
def readContentSize (s : List Nat) : Option (Int × List Nat) :=
  match readFull 8 s with
  | none => none
  | some (b, rest) => some (sint 64 (beNat b), rest)

/-- `readVersion`: a single `file.Read` of a 32-byte buffer (error checked,
so EOF on an empty stream is an I/O error), then `bytes.Trim(buf, "\x00")`. -/
def readVersion (s : List Nat) : Option (List Nat × List Nat) :=
  if s.isEmpty then none
  else some (trimZeros (padZero 32 (s.take 32)), s.drop 32)

/-- `readTempo`: `binary.Read` of a little-endian `float32`; the bit
pattern is kept as a `Nat`. -/
def readTempo (s : List Nat) : Option (Nat × List Nat) :=
  match readFull 4 s with
  | none => none
  | some (b, rest) => some (leNat b, rest)

/-- Result of `readTrack`: the parsed track, the unread rest of the stream
and the updated remaining-byte counter; or an I/O error; or a run-time
panic (negative `make` size). -/
inductive TrackResult where
  | ok (t : Track) (rest : List Nat) (size : Int)
  | ioErr
  | panicked
  deriving Repr, DecidableEq

/-- `readTrack`: ID (`binary.Read`, LE `int32`), name length (`binary.Read`,
`int8`), name (`file.Read` into `make([]byte, nameLength)` with both the
byte count and the error ignored — short reads leave zero bytes; a negative
`nameLength` makes `make` panic), then 16 step bytes each via `binary.Read`
of an `int8` (so all 16 must be available), each step active iff its signed
byte is `> 0`.  The four `int64` counter decrements (by 4, 1, `nameLength`
and 16) each wrap. -/
def readTrack (s : List Nat) (size : Int) : TrackResult :=
  match readFull 4 s with
  | none => .ioErr
  | some (idb, s1) =>
    match readFull 1 s1 with
    | none => .ioErr
    | some (nlb, s2) =>
      let nl : Int := sint 8 (nlb.getD 0 0)
      if nl < 0 then .panicked
      else
        let nameBytes := padZero nl.toNat (s2.take nl.toNat)
        let s3 := s2.drop nl.toNat
        match readFull 16 s3 with
        | none => .ioErr
        | some (stb, s4) =>
          .ok ⟨sint 32 (leNat idb), nameBytes, stb.map (fun b => decide (0 < sint 8 b))⟩
            s4 (wrap64 (wrap64 (wrap64 (wrap64 (size - 4) - 1) - nl) - 16))

/-- Result of the track loop: the track list and the unread rest, or a
propagated I/O error or panic. -/
inductive LoopResult where
  | ok (tracks : List Track) (rest : List Nat)
  | ioErr
  | panicked
  deriving Repr, DecidableEq

/-- Destructor for a successful `readFull`. -/
theorem readFull_some {k : Nat} {s b r : List Nat}
    (h : readFull k s = some (b, r)) :
    k ≤ s.length ∧ b = s.take k ∧ r = s.drop k := by
  unfold readFull at h
  split at h <;> simp_all

/-- A successful `readTrack` consumes at least 21 bytes of the stream. -/
theorem readTrack_ok_length {s : List Nat} {size : Int} {t : Track}
    {rest : List Nat} {size2 : Int} (h : readTrack s size = .ok t rest size2) :
    rest.length < s.length := by
  simp only [readTrack] at h
  split at h
  · simp at h
  next idb s1 heq4 =>
  split at h
  · simp at h
  next nlb s2 heq1 =>
  split at h
  · simp at h
  split at h
  · simp at h
  next stb s4 heq16 =>
  obtain ⟨h4, -, hs1⟩ := readFull_some heq4
  obtain ⟨h1, -, hs2⟩ := readFull_some heq1
  obtain ⟨h16, -, hs4⟩ := readFull_some heq16
  simp only [TrackResult.ok.injEq] at h
  obtain ⟨-, hrest, -⟩ := h
  subst hrest hs4 hs2 hs1
  simp only [List.length_drop] at *
  omega

/-- The track loop of `DecodeFile`: `for size > 0 { readTrack }`, appending
each parsed track. -/
def trackLoop (size : Int) (acc : List Track) (s : List Nat) : LoopResult :=
  if 0 < size then
    match h : readTrack s size with
    | .ok t rest size2 => trackLoop size2 (acc ++ [t]) rest
    | .ioErr => .ioErr
    | .panicked => .panicked
  else
    .ok acc s
termination_by s.length
decreasing_by exact readTrack_ok_length h

/-- Result of `DecodeFile`. -/
inductive DecodeResult where
  | ok (p : Pattern)
  | formatError (got : List Nat)
  | ioErr
  | panicked
  deriving Repr, DecidableEq

/-- `DecodeFile`: header (whose read error is dropped by the Go code — only
the returned string is checked against `"SPLICE"`), content size, version,
tempo, then the track loop seeded with the `int64` value of
`size - 32 - 4` (each subtraction wrapping).  The second
component is the unread remainder of the file (the stream cursor); on the
error paths other than the header check it is irrelevant and set to `[]`. -/
def DecodeFile (s : List Nat) : DecodeResult × List Nat :=
  match readHeader s with
  | (header, s0) =>
    if header ≠ SPLICE then (.formatError header, s0)
    else
      match readContentSize s0 with
      | none => (.ioErr, [])
      | some (size, s1) =>
        match readVersion s1 with
        | none => (.ioErr, [])
        | some (version, s2) =>
          match readTempo s2 with
          | none => (.ioErr, [])
          | some (tempo, s3) =>
            match trackLoop (wrap64 (wrap64 (size - 32) - 4)) [] s3 with
            | .ok tracks rest => (.ok ⟨version, tempo, tracks⟩, rest)
            | .ioErr => (.ioErr, [])
            | .panicked => (.panicked, [])

/-- The track loop does not run when the remaining-byte counter is `≤ 0`. -/
theorem trackLoop_stop {size : Int} {acc : List Track} {s : List Nat}
    (h : size ≤ 0) : trackLoop size acc s = .ok acc s := by
  rw [trackLoop]
  simp [show ¬ 0 < size by omega]

/-- One successful iteration of the track loop. -/
theorem trackLoop_step_ok {size : Int} {acc : List Track} {s : List Nat}
    {t : Track} {rest : List Nat} {size2 : Int} (h0 : 0 < size)
    (h : readTrack s size = .ok t rest size2) :
    trackLoop size acc s = trackLoop size2 (acc ++ [t]) rest := by
  rw [trackLoop]
  simp only [if_pos h0]
  split <;> simp_all

/-- An I/O error in `readTrack` aborts the track loop. -/
theorem trackLoop_step_ioErr {size : Int} {acc : List Track} {s : List Nat}
    (h0 : 0 < size) (h : readTrack s size = .ioErr) :
    trackLoop size acc s = .ioErr := by
  rw [trackLoop]
  simp only [if_pos h0]
  split <;> simp_all

/-- A panic in `readTrack` propagates out of the track loop. -/
theorem trackLoop_step_panicked {size : Int} {acc : List Track} {s : List Nat}
    (h0 : 0 < size) (h : readTrack s size = .panicked) :
    trackLoop size acc s = .panicked := by
  rw [trackLoop]
  simp only [if_pos h0]
  split <;> simp_all

/-- `DecodeFile` on a stream with a valid signature, an 8-byte size field, a
32-byte version block and a 4-byte tempo field: the result is the track
loop's, seeded with the wrapped `int64` value of declared size minus 32
minus 4, running on the rest. -/
theorem DecodeFile_layout (szb v t body : List Nat)
    (hsz : szb.length = 8) (hv : v.length = 32) (ht : t.length = 4) :
    DecodeFile (SPLICE ++ szb ++ v ++ t ++ body) =
      match trackLoop (wrap64 (wrap64 (sint 64 (beNat szb) - 32) - 4)) [] body with
      | .ok tracks rest => (.ok ⟨trimZeros v, leNat t, tracks⟩, rest)
      | .ioErr => (.ioErr, [])
      | .panicked => (.panicked, []) := by
  have hsp : (SPLICE ++ szb ++ v ++ t ++ body) =
      SPLICE ++ (szb ++ (v ++ (t ++ body))) := by simp
  rw [hsp]
  unfold DecodeFile readHeader readContentSize readVersion readTempo readFull
  have h6 : (SPLICE ++ (szb ++ (v ++ (t ++ body)))).take 6 = SPLICE :=
    List.take_left' rfl
  have h6d : (SPLICE ++ (szb ++ (v ++ (t ++ body)))).drop 6 =
      szb ++ (v ++ (t ++ body)) := List.drop_left' rfl
  have h8 : (szb ++ (v ++ (t ++ body))).take 8 = szb := List.take_left' hsz
  have h8d : (szb ++ (v ++ (t ++ body))).drop 8 = v ++ (t ++ body) :=
    List.drop_left' hsz
  have h32 : (v ++ (t ++ body)).take 32 = v := List.take_left' hv
  have h32d : (v ++ (t ++ body)).drop 32 = t ++ body := List.drop_left' hv
  have h4 : (t ++ body).take 4 = t := List.take_left' ht
  have h4d : (t ++ body).drop 4 = body := List.drop_left' ht
  have hne : ¬ (SPLICE ++ (szb ++ (v ++ (t ++ body)))).isEmpty := by
    simp [SPLICE]
  have hvne : ¬ (v ++ (t ++ body)).isEmpty := by
    cases v with
    | nil => simp at hv
    | cons a l => simp
  have hlen6 : 6 ≤ (SPLICE ++ (szb ++ (v ++ (t ++ body)))).length := by
    simp [SPLICE]
  have hlen8 : 8 ≤ (szb ++ (v ++ (t ++ body))).length := by
    simp [hsz]
  have hlen4 : 4 ≤ (t ++ body).length := by
    simp [ht]
  have hpad : padZero 6 SPLICE = SPLICE := by decide
  have hpadv : padZero 32 v = v := by simp [padZero, hv]
  simp only [hne, h6, h6d, h8, h8d, h32, h32d, h4, h4d, hpad, hpadv,
    hlen8, hlen4, Bool.false_eq_true, if_false, if_true, ite_true, ite_false,
    ne_eq, not_true_eq_false, not_false_eq_true, if_pos, if_neg]
  simp [hvne, ht, h4, h4d]

/-- The concrete end-to-end input of the specification scenario: signature,
payload size 61, version `"0.808-alpha"` zero-padded to 32 bytes, tempo
`120.0` little-endian, and one track (ID 0, name `"kick"`, 16 step bytes). -/
def c1input : List Nat :=
  SPLICE ++ [0, 0, 0, 0, 0, 0, 0, 61] ++
  ([48, 46, 56, 48, 56, 45, 97, 108, 112, 104, 97] ++ List.replicate 21 0) ++
  [0, 0, 240, 66] ++
  ([0, 0, 0, 0] ++ [4] ++ [107, 105, 99, 107] ++
   [1, 0, 0, 0, 1, 0, 0, 0, 1, 0, 0, 0, 1, 0, 0, 0])

/-- The expected decoded track of the scenario. -/
def c1track : Track :=
  ⟨0, [107, 105, 99, 107],
   [true, false, false, false, true, false, false, false,
    true, false, false, false, true, false, false, false]⟩

/-- **C1.** Decoding the scenario input yields exactly the pattern with
version `"0.808-alpha"`, tempo whose 32-bit pattern is `0x42F00000`
(IEEE-754 value exactly `120`), and the single track (ID 0, name `"kick"`,
steps `[on,off,off,off]` four times), with no error and the whole stream
consumed. -/
theorem C1_end_to_end_scenario :
    DecodeFile c1input =
      (.ok ⟨[48, 46, 56, 48, 56, 45, 97, 108, 112, 104, 97],
            1123024896, [c1track]⟩, []) ∧
    f32val 1123024896 = some 120 := by
  constructor
  · have h1 : readTrack ([0, 0, 0, 0] ++ [4] ++ [107, 105, 99, 107] ++
        [1, 0, 0, 0, 1, 0, 0, 0, 1, 0, 0, 0, 1, 0, 0, 0]) 25 =
        .ok c1track [] 0 := by decide
    have h2 : trackLoop 25 []
        ([0, 0, 0, 0] ++ [4] ++ [107, 105, 99, 107] ++
         [1, 0, 0, 0, 1, 0, 0, 0, 1, 0, 0, 0, 1, 0, 0, 0]) =
        trackLoop 0 ([] ++ [c1track]) [] := trackLoop_step_ok (by norm_num) h1
    have h3 : trackLoop 0 [c1track] [] = .ok [c1track] [] := trackLoop_stop le_rfl
    have hl := DecodeFile_layout [0, 0, 0, 0, 0, 0, 0, 61]
      ([48, 46, 56, 48, 56, 45, 97, 108, 112, 104, 97] ++ List.replicate 21 0)
      [0, 0, 240, 66]
      ([0, 0, 0, 0] ++ [4] ++ [107, 105, 99, 107] ++
       [1, 0, 0, 0, 1, 0, 0, 0, 1, 0, 0, 0, 1, 0, 0, 0])
      rfl (by simp) rfl
    have hsz : wrap64 (wrap64 (sint 64 (beNat [0, 0, 0, 0, 0, 0, 0, 61]) - 32) - 4) = 25 := by
      decide
    rw [hsz] at hl
    unfold c1input
    rw [hl, h2, List.nil_append, h3]
    rfl
  · norm_num [f32val]

/-- **C2.** If the first 6 bytes are all present but differ from
`"SPLICE"`, decoding fails with the format error carrying exactly those 6
bytes, and the stream cursor stands right after them: nothing further is
consumed. -/
theorem C2_signature_gate (s : List Nat) (hlen : 6 ≤ s.length)
    (hne : s.take 6 ≠ SPLICE) :
    DecodeFile s = (.formatError (s.take 6), s.drop 6) := by
  unfold DecodeFile readHeader
  have hnz : ¬ s.isEmpty := by
    cases s
    · simp at hlen
    · simp
  have h6 : (s.take 6).length = 6 := by
    simp only [List.length_take]
    omega
  have hpad : padZero 6 (s.take 6) = s.take 6 := by
    simp [padZero, h6]
  simp [hnz, hpad, hne]

/-- Witness for C2 at the all-zero 6-byte input. -/
theorem C2_signature_gate_w :
    DecodeFile [0, 0, 0, 0, 0, 0] = (.formatError [0, 0, 0, 0, 0, 0], []) :=
  C2_signature_gate [0, 0, 0, 0, 0, 0] (by decide) (by decide)

/-- **C4** (divergence witness).  On the empty input, `readHeader`'s read
fails with `io.EOF`, but `DecodeFile` never checks that error: it compares
the empty header string against `"SPLICE"` and returns the format error
(built from the unread, empty buffer contents) instead of propagating the
I/O error. -/
theorem C4_header_error_dropped : DecodeFile [] = (.formatError [], []) := rfl

/-- The name-length byte is the fifth byte of the record. -/
theorem getD_take_one_drop (s : List Nat) :
    ((s.drop 4).take 1).getD 0 0 = s.getD 4 0 := by
  simp [List.getD_eq_getElem?_getD, List.getElem?_take, List.getElem?_drop]

/-- Normal form of `readTrack`: an I/O error unless the 5 fixed leading
bytes and then the whole record are available; a panic on a negative name
length; otherwise the track assembled from the exact byte slices of the
record, the rest of the stream after `21 + nameLength` bytes, and the
counter decreased by `4 + 1 + nameLength + 16`. -/
theorem readTrack_eq (s : List Nat) (size : Int) :
    readTrack s size =
      if 5 ≤ s.length then
        if sint 8 (s.getD 4 0) < 0 then .panicked
        else if 21 + (sint 8 (s.getD 4 0)).toNat ≤ s.length then
          .ok ⟨sint 32 (leNat (s.take 4)),
               (s.drop 5).take (sint 8 (s.getD 4 0)).toNat,
               ((s.drop (5 + (sint 8 (s.getD 4 0)).toNat)).take 16).map
                 (fun b => decide (0 < sint 8 b))⟩
            (s.drop (21 + (sint 8 (s.getD 4 0)).toNat))
            (wrap64 (wrap64 (wrap64 (wrap64 (size - 4) - 1) -
              sint 8 (s.getD 4 0)) - 16))
        else .ioErr
      else .ioErr := by
  unfold readTrack readFull
  by_cases h4 : 4 ≤ s.length
  case neg =>
    rw [if_neg h4, if_neg (by omega)]
  case pos =>
    rw [if_pos h4]
    dsimp only
    by_cases h5 : 5 ≤ s.length
    case neg =>
      have hd1 : ¬ 1 ≤ (s.drop 4).length := by
        simp only [List.length_drop]
        omega
      rw [if_neg hd1, if_neg h5]
    case pos =>
      have hd1 : 1 ≤ (s.drop 4).length := by
        simp only [List.length_drop]
        omega
      rw [if_pos hd1, if_pos h5]
      simp only [getD_take_one_drop, List.drop_drop]
      by_cases hneg : sint 8 (s.getD 4 0) < 0
      case pos =>
        rw [if_pos hneg, if_pos hneg]
      case neg =>
        rw [if_neg hneg, if_neg hneg]
        by_cases h16 : 21 + (sint 8 (s.getD 4 0)).toNat ≤ s.length
        case pos =>
          have hc : 16 ≤ (s.drop (4 + 1 + (sint 8 (s.getD 4 0)).toNat)).length := by
            simp only [List.length_drop]
            omega
          rw [if_pos hc, if_pos h16]
          dsimp only
          have e1 : 4 + 1 + (sint 8 (s.getD 4 0)).toNat + 16 =
              21 + (sint 8 (s.getD 4 0)).toNat := by omega
          have e2 : 4 + 1 + (sint 8 (s.getD 4 0)).toNat =
              5 + (sint 8 (s.getD 4 0)).toNat := by omega
          have e3 : (4 : Nat) + 1 = 5 := by norm_num
          rw [e1, e2, e3]
          have hlen : ((s.drop 5).take (sint 8 (s.getD 4 0)).toNat).length =
              (sint 8 (s.getD 4 0)).toNat := by
            simp only [List.length_take, List.length_drop]
            omega
          simp only [padZero, hlen, List.length_take, List.length_drop]
          have : (sint 8 (s.getD 4 0)).toNat ⊓ (s.length - 5) =
              (sint 8 (s.getD 4 0)).toNat := by omega
          simp [this]
        case neg =>
          have hc : ¬ 16 ≤ (s.drop (4 + 1 + (sint 8 (s.getD 4 0)).toNat)).length := by
            simp only [List.length_drop]
            omega
          rw [if_neg hc, if_neg h16]

/-- Any panic that escapes the track loop came from some `readTrack` call. -/
theorem trackLoop_panicked_source :
    ∀ (n : Nat) (size : Int) (acc : List Track) (s : List Nat), s.length ≤ n →
      trackLoop size acc s = .panicked →
      ∃ s2 size2, readTrack s2 size2 = .panicked := by
  intro n
  induction n with
  | zero =>
    intro size acc s hlen h
    by_cases h0 : 0 < size
    · cases hr : readTrack s size with
      | ok t rest size2 =>
        exact absurd (readTrack_ok_length hr) (by omega)
      | ioErr =>
        rw [trackLoop_step_ioErr h0 hr] at h
        cases h
      | panicked => exact ⟨s, size, hr⟩
    · rw [trackLoop_stop (by omega)] at h
      cases h
  | succ n ih =>
    intro size acc s hlen h
    by_cases h0 : 0 < size
    · cases hr : readTrack s size with
      | ok t rest size2 =>
        rw [trackLoop_step_ok h0 hr] at h
        have hlt := readTrack_ok_length hr
        exact ih size2 (acc ++ [t]) rest (by omega) h
      | ioErr =>
        rw [trackLoop_step_ioErr h0 hr] at h
        cases h
      | panicked => exact ⟨s, size, hr⟩
    · rw [trackLoop_stop (by omega)] at h
      cases h

/-- Any panic reported by `DecodeFile` came from some `readTrack` call. -/
theorem DecodeFile_panicked_source (s : List Nat)
    (h : (DecodeFile s).1 = .panicked) :
    ∃ s2 size2, readTrack s2 size2 = .panicked := by
  unfold DecodeFile at h
  rcases hh : readHeader s with ⟨header, s0⟩
  rw [hh] at h
  dsimp only at h
  by_cases hhdr : header ≠ SPLICE
  · rw [if_pos hhdr] at h
    simp at h
  rw [if_neg hhdr] at h
  cases hcs : readContentSize s0 with
  | none =>
    rw [hcs] at h
    simp at h
  | some p1 =>
    obtain ⟨sz, s1⟩ := p1
    rw [hcs] at h
    dsimp only at h
    cases hv : readVersion s1 with
    | none =>
      rw [hv] at h
      simp at h
    | some p2 =>
      obtain ⟨ver, s2⟩ := p2
      rw [hv] at h
      dsimp only at h
      cases htm : readTempo s2 with
      | none =>
        rw [htm] at h
        simp at h
      | some p3 =>
        obtain ⟨tempo, s3⟩ := p3
        rw [htm] at h
        dsimp only at h
        cases hloop : trackLoop (wrap64 (wrap64 (sz - 32) - 4)) [] s3 with
        | ok tracks rest =>
          rw [hloop] at h
          simp at h
        | ioErr =>
          rw [hloop] at h
          simp at h
        | panicked =>
          exact trackLoop_panicked_source s3.length _ _ _ le_rfl hloop

/-- The concrete input whose single track record carries name-length byte
`0xFF` (signed value −1): signature, payload size 37, a zeroed version
block, tempo bytes, track ID bytes, then the negative length byte. -/
def c3input : List Nat :=
  SPLICE ++ [0, 0, 0, 0, 0, 0, 0, 37] ++ List.replicate 32 0 ++
  [0, 0, 0, 0] ++ [0, 0, 0, 0, 255]

/-- **C3 (counterexample).** On `c3input` the decoder does not return a
`Pattern` or an error value: `make([]byte, nameLength)` with the negative
name length panics, contradicting the claim that decode never panics for a
negative name-length byte. -/
theorem C3_counterexample : DecodeFile c3input = (.panicked, []) := by
  have hl := DecodeFile_layout [0, 0, 0, 0, 0, 0, 0, 37] (List.replicate 32 0)
    [0, 0, 0, 0] [0, 0, 0, 0, 255] rfl (by simp) rfl
  have hsz : wrap64 (wrap64 (sint 64 (beNat [0, 0, 0, 0, 0, 0, 0, 37]) - 32) - 4) = 1 := by
    decide
  rw [hsz] at hl
  have h1 : readTrack [0, 0, 0, 0, 255] 1 = .panicked := by decide
  unfold c3input
  rw [hl, trackLoop_step_panicked (by norm_num) h1]

/-- **C3 (amended).** Decode terminates on every input (all the modelled
functions are total) and returns a fully-populated `Pattern` or an error,
except that it panics when a track record's name-length byte is negative:
`readTrack` panics exactly when its first five bytes are present and the
fifth reads as a negative signed 8-bit value, and `DecodeFile` reports a
panic only when some `readTrack` call panics. -/
theorem C3_no_panic_amended :
    (∀ (s : List Nat) (size : Int), readTrack s size = .panicked ↔
      5 ≤ s.length ∧ sint 8 (s.getD 4 0) < 0) ∧
    (∀ s : List Nat, (DecodeFile s).1 = .panicked →
      ∃ s2 size2, readTrack s2 size2 = .panicked) := by
  constructor
  · intro s size
    rw [readTrack_eq]
    split_ifs <;> simp_all
  · exact DecodeFile_panicked_source

/-- Witness for the amended C3: a record whose fifth byte is `0xFF` panics. -/
theorem C3_no_panic_amended_w : readTrack [0, 0, 0, 0, 255] 7 = .panicked :=
  (C3_no_panic_amended.1 [0, 0, 0, 0, 255] 7).mpr (by decide)

/-- **C8 (counterexample).** Declared payload size −2^63 (size field
`0x8000000000000000`): mathematically size − 36 is negative, so the claim
says the track loop body never executes and no error is raised — but Go
computes the seed in `int64`, where `−2^63 − 32` wraps around to a huge
positive value, so the loop does run on the empty remainder and the decode
fails with an I/O error. -/
theorem C8_counterexample :
    DecodeFile (SPLICE ++ [128, 0, 0, 0, 0, 0, 0, 0] ++ List.replicate 32 0 ++
      [0, 0, 0, 0]) = (.ioErr, []) ∧
    sint 64 (beNat [128, 0, 0, 0, 0, 0, 0, 0]) - 36 < 0 := by
  constructor
  · have hl := DecodeFile_layout [128, 0, 0, 0, 0, 0, 0, 0]
      (List.replicate 32 0) [0, 0, 0, 0] [] rfl (by simp) rfl
    rw [List.append_nil] at hl
    have hsz : wrap64 (wrap64 (sint 64 (beNat [128, 0, 0, 0, 0, 0, 0, 0]) - 32) - 4) =
        2 ^ 63 - 36 := by decide
    rw [hsz] at hl
    have h1 : readTrack [] (2 ^ 63 - 36) = .ioErr := by
      rw [readTrack_eq]
      norm_num
    rw [hl, trackLoop_step_ioErr (by norm_num) h1]
  · decide

/-- **C8 (amended).** A declared payload size of exactly 36 decodes, for
any 32-byte version block and 4-byte tempo field, to a pattern with an
empty track list and no error (trailing bytes stay unread); and for every
declared size in the non-wrapping window `−2^63 + 36 ≤ size ≤ 36`, the
`int64` seed computed by the code equals `size − 36 ≤ 0`, so the track
loop never runs its body and returns the accumulated (empty) list
unchanged.  Below that window the subtraction wraps positive and the loop
does run. -/
theorem C8_empty_track_list_amended :
    (∀ v t rest : List Nat, v.length = 32 → t.length = 4 →
      DecodeFile (SPLICE ++ [0, 0, 0, 0, 0, 0, 0, 36] ++ v ++ t ++ rest) =
        (.ok ⟨trimZeros v, leNat t, []⟩, rest)) ∧
    (∀ (size : Int) (acc : List Track) (s : List Nat),
      -(2 ^ 63) + 36 ≤ size → size - 36 ≤ 0 →
      wrap64 (wrap64 (size - 32) - 4) = size - 36 ∧
      trackLoop (wrap64 (wrap64 (size - 32) - 4)) acc s = .ok acc s) := by
  constructor
  · intro v t rest hv ht
    have hl := DecodeFile_layout [0, 0, 0, 0, 0, 0, 0, 36] v t rest rfl hv ht
    have hsz : wrap64 (wrap64 (sint 64 (beNat [0, 0, 0, 0, 0, 0, 0, 36]) - 32) - 4) =
        0 := by decide
    rw [hsz] at hl
    rw [hl, trackLoop_stop le_rfl]
  · intro size acc s h1 h2
    have hw : wrap64 (wrap64 (size - 32) - 4) = size - 36 := by
      unfold wrap64
      omega
    refine ⟨hw, ?_⟩
    rw [hw]
    exact trackLoop_stop (by omega)

/-- Witness for the amended C8 with a zeroed version block and tempo field
and one trailing byte. -/
theorem C8_empty_track_list_amended_w :
    DecodeFile (SPLICE ++ [0, 0, 0, 0, 0, 0, 0, 36] ++ List.replicate 32 0 ++
      [0, 0, 0, 0] ++ [9]) = (.ok ⟨[], 0, []⟩, [9]) := by
  have h := C8_empty_track_list_amended.1 (List.replicate 32 0) [0, 0, 0, 0] [9]
    (by decide) (by decide)
  simpa using h

/-- **C9 (counterexample).** At declared size −2^63 + 1 (size field
`0x8000000000000001`) the loop seed is not the claimed
`declared size − 36`: the program fails with an I/O error, because the
`int64` computation wraps to a huge positive seed and the loop reads from
the empty remainder — whereas a loop genuinely seeded with
`declared size − 36` (a negative number) stops at once and would have
produced the empty track list. -/
theorem C9_counterexample :
    DecodeFile (SPLICE ++ [128, 0, 0, 0, 0, 0, 0, 1] ++ List.replicate 32 0 ++
      [0, 0, 0, 0]) = (.ioErr, []) ∧
    trackLoop (sint 64 (beNat [128, 0, 0, 0, 0, 0, 0, 1]) - 36) [] [] =
      .ok [] [] := by
  constructor
  · have hl := DecodeFile_layout [128, 0, 0, 0, 0, 0, 0, 1]
      (List.replicate 32 0) [0, 0, 0, 0] [] rfl (by simp) rfl
    rw [List.append_nil] at hl
    have hsz : wrap64 (wrap64 (sint 64 (beNat [128, 0, 0, 0, 0, 0, 0, 1]) - 32) - 4) =
        2 ^ 63 - 35 := by decide
    rw [hsz] at hl
    have h1 : readTrack [] (2 ^ 63 - 35) = .ioErr := by
      rw [readTrack_eq]
      norm_num
    rw [hl, trackLoop_step_ioErr (by norm_num) h1]
  · exact trackLoop_stop (by decide)

/-- **C9 (amended).** The remaining-byte counter is a Go `int64`: (1) the
loop is seeded with the wrapped `int64` value of (declared size − 32 − 4)
and its outcome is the decode's outcome; (2) that seed equals declared
size − 36 exactly on the non-wrapping window `declared size ≥ −2^63 + 36`;
(3) a successfully parsed record, from a positive in-range counter and a
genuine length byte, decrements the counter by exactly
`4 + 1 + nameLength + 16`; (4) the loop returns without reading when the
counter is `≤ 0` (so a final record may have driven it negative without
error) and iterates exactly when it is `> 0`, consulting it only between
complete records; (5) the outcome of reading one record does not depend on
the counter at all — a record is always read to completion. -/
theorem C9_counter_wrapped :
    (∀ szb v t body : List Nat, szb.length = 8 → v.length = 32 →
      t.length = 4 →
      DecodeFile (SPLICE ++ szb ++ v ++ t ++ body) =
        match trackLoop (wrap64 (wrap64 (sint 64 (beNat szb) - 32) - 4))
            [] body with
        | .ok tracks rest => (.ok ⟨trimZeros v, leNat t, tracks⟩, rest)
        | .ioErr => (.ioErr, [])
        | .panicked => (.panicked, [])) ∧
    (∀ sz : Int, -(2 ^ 63) + 36 ≤ sz → sz < 2 ^ 63 →
      wrap64 (wrap64 (sz - 32) - 4) = sz - 36) ∧
    (∀ (s : List Nat) (size : Int) (t : Track) (rest : List Nat)
        (size2 : Int), 0 < size → size < 2 ^ 63 → s.getD 4 0 < 256 →
      readTrack s size = .ok t rest size2 →
      size2 = size - (4 + 1 + (t.Name.length : Int) + 16)) ∧
    (∀ (size : Int) (acc : List Track) (s : List Nat), size ≤ 0 →
      trackLoop size acc s = .ok acc s) ∧
    (∀ (size : Int) (acc : List Track) (s : List Nat) (t : Track)
        (rest : List Nat) (size2 : Int), 0 < size →
      readTrack s size = .ok t rest size2 →
      trackLoop size acc s = trackLoop size2 (acc ++ [t]) rest) ∧
    (∀ (s : List Nat) (size size3 : Int) (t : Track) (rest : List Nat)
        (size2 : Int), readTrack s size = .ok t rest size2 →
      readTrack s size3 = .ok t rest
        (wrap64 (wrap64 (wrap64 (wrap64 (size3 - 4) - 1) -
          sint 8 (s.getD 4 0)) - 16))) := by
  refine ⟨?_, ?_, ?_, ?_, ?_, ?_⟩
  · intro szb v t body hsz hv ht
    exact DecodeFile_layout szb v t body hsz hv ht
  · intro sz h1 h2
    unfold wrap64
    omega
  · intro s size t rest size2 h0 hlt hbyte h
    rw [readTrack_eq] at h
    split_ifs at h with h5 hneg h16
    simp only [TrackResult.ok.injEq] at h
    obtain ⟨ht, -, hs2⟩ := h
    subst ht hs2
    have hb : sint 8 (s.getD 4 0) ≤ 127 := by
      unfold sint
      split_ifs with hx <;> omega
    simp only [List.length_take, List.length_drop]
    have hmin : (sint 8 (s.getD 4 0)).toNat ⊓ (s.length - 5) =
        (sint 8 (s.getD 4 0)).toNat := by omega
    rw [hmin, Int.toNat_of_nonneg (by omega : 0 ≤ sint 8 (s.getD 4 0))]
    unfold wrap64
    omega
  · intro size acc s h
    exact trackLoop_stop h
  · intro size acc s t rest size2 h0 h
    exact trackLoop_step_ok h0 h
  · intro s size size3 t rest size2 h
    rw [readTrack_eq] at h ⊢
    split_ifs at h with h5 hneg h16
    simp only [TrackResult.ok.injEq] at h
    obtain ⟨ht, hrest, -⟩ := h
    rw [if_pos h5, if_neg hneg, if_pos h16, ht, hrest]

/-- Witness for the amended C9: a complete 23-byte record decrements an
in-range positive counter of 100 by `4 + 1 + 2 + 16`. -/
theorem C9_counter_wrapped_w :
    77 = (100 : Int) -
      (4 + 1 + ((Track.mk 1 [65, 66]
        [true, true, true, true, true, true, true, true,
         false, false, false, false, false, false, false, false]).Name.length : Int) + 16) :=
  C9_counter_wrapped.2.2.1
    [1, 0, 0, 0, 2, 65, 66, 1, 1, 1, 1, 1, 1, 1, 1, 0, 0, 0, 0, 0, 0, 0, 0]
    100 _ [] 77 (by norm_num) (by norm_num) (by decide) (by decide)

/-- **C10.** Decoding is a pure function of the input byte sequence: equal
inputs give identical results (same pattern or same error kind). -/
theorem C10_deterministic (s1 s2 : List Nat) (h : s1 = s2) :
    DecodeFile s1 = DecodeFile s2 := by rw [h]

/-- Witness for C10 at a concrete input. -/
theorem C10_deterministic_w : DecodeFile [1, 2, 3] = DecodeFile [1, 2, 3] :=
  C10_deterministic [1, 2, 3] [1, 2, 3] rfl

/-- **C5.** Track sub-reads never yield a truncated or zero-filled name:
on success the name is exactly the `nameLength` bytes that follow the
length byte and the whole `4 + 1 + nameLength + 16`-byte record was
present; if the stream is too short for the fixed fields or for the full
record, `readTrack` fails with an I/O error; and an I/O error in
`readTrack` aborts the whole track loop (hence the decode) with that
error. -/
theorem C5_subread_failures (s : List Nat) (size : Int) :
    (∀ (t : Track) (rest : List Nat) (size2 : Int),
      readTrack s size = .ok t rest size2 →
      t.Name = (s.drop 5).take (sint 8 (s.getD 4 0)).toNat ∧
      t.Name.length = (sint 8 (s.getD 4 0)).toNat ∧
      21 + (sint 8 (s.getD 4 0)).toNat ≤ s.length) ∧
    (s.length < 5 → readTrack s size = .ioErr) ∧
    (5 ≤ s.length → 0 ≤ sint 8 (s.getD 4 0) →
      s.length < 21 + (sint 8 (s.getD 4 0)).toNat →
      readTrack s size = .ioErr) ∧
    (∀ acc : List Track, 0 < size → readTrack s size = .ioErr →
      trackLoop size acc s = .ioErr) := by
  refine ⟨?_, ?_, ?_, ?_⟩
  · intro t rest size2 h
    rw [readTrack_eq] at h
    split_ifs at h with h5 hneg h16
    simp only [TrackResult.ok.injEq] at h
    obtain ⟨ht, -, -⟩ := h
    subst ht
    refine ⟨rfl, ?_, h16⟩
    simp only [List.length_take, List.length_drop]
    omega
  · intro hlen
    rw [readTrack_eq, if_neg (by omega)]
  · intro h5 hnn h16
    rw [readTrack_eq, if_pos h5, if_neg (by omega), if_neg (by omega)]
  · intro acc h0 h
    exact trackLoop_step_ioErr h0 h

/-- Witness for C5: a 4-byte stream (record cut inside the fixed fields)
gives an I/O error. -/
theorem C5_subread_failures_w : readTrack [0, 0, 0, 0] 5 = .ioErr :=
  (C5_subread_failures [0, 0, 0, 0] 5).2.1 (by decide)

/-- **C7.** Every decoded track has exactly 16 steps, and a step is active
iff its byte, read as a signed 8-bit integer, is strictly positive: for
genuine bytes (`< 256`) that is exactly the range `0x01`–`0x7F`, while
`0x00` and `0x80`–`0xFF` give an inactive step. -/
theorem C7_step_flags (s : List Nat) (size : Int) (t : Track)
    (rest : List Nat) (size2 : Int) (hb : ∀ b ∈ s, b < 256)
    (h : readTrack s size = .ok t rest size2) :
    t.Steps.length = 16 ∧
    (∀ i, i < 16 →
      (t.Steps.getD i false = true ↔
        1 ≤ s.getD (5 + (sint 8 (s.getD 4 0)).toNat + i) 0 ∧
        s.getD (5 + (sint 8 (s.getD 4 0)).toNat + i) 0 ≤ 127)) := by
  rw [readTrack_eq] at h
  split_ifs at h with h5 hneg h16
  simp only [TrackResult.ok.injEq] at h
  obtain ⟨ht, -, -⟩ := h
  subst ht
  constructor
  · simp only [List.length_map, List.length_take, List.length_drop]
    omega
  · intro i hi
    have hidx : 5 + (sint 8 (s.getD 4 0)).toNat + i < s.length := by omega
    have hstep : (((s.drop (5 + (sint 8 (s.getD 4 0)).toNat)).take 16).map
        (fun b => decide (0 < sint 8 b))).getD i false =
        decide (0 < sint 8 (s.getD (5 + (sint 8 (s.getD 4 0)).toNat + i) 0)) := by
      rw [List.getD_eq_getElem?_getD, List.getElem?_map, List.getElem?_take,
        if_pos hi, List.getElem?_drop, List.getElem?_eq_getElem hidx,
        List.getD_eq_getElem s 0 hidx]
      rfl
    rw [hstep, decide_eq_true_iff]
    have hmem : s.getD (5 + (sint 8 (s.getD 4 0)).toNat + i) 0 < 256 := by
      rw [List.getD_eq_getElem s 0 hidx]
      exact hb _ (List.getElem_mem hidx)
    generalize s.getD (5 + (sint 8 (s.getD 4 0)).toNat + i) 0 = b at hmem ⊢
    unfold sint
    split_ifs with hlt <;> omega

/-- Witness for C7 at a concrete one-track record with step bytes
`0, 1, 127, 128, 255` among the sixteen. -/
theorem C7_step_flags_w :
    ((Track.mk 0 [] [false, true, true, false, false, false, false, false,
      false, false, false, false, false, false, false, true]).Steps.length = 16) ∧
    (∀ i, i < 16 →
      (((Track.mk 0 [] [false, true, true, false, false, false, false, false,
        false, false, false, false, false, false, false, true]).Steps.getD i false = true) ↔
        1 ≤ ([0, 0, 0, 0, 0, 0, 1, 127, 128, 255, 0, 0, 0, 0, 0, 0, 0, 0, 0, 0, 1] :
          List Nat).getD (5 + (sint 8 (([0, 0, 0, 0, 0, 0, 1, 127, 128, 255, 0,
          0, 0, 0, 0, 0, 0, 0, 0, 0, 1] : List Nat).getD 4 0)).toNat + i) 0 ∧
        ([0, 0, 0, 0, 0, 0, 1, 127, 128, 255, 0, 0, 0, 0, 0, 0, 0, 0, 0, 0, 1] :
          List Nat).getD (5 + (sint 8 (([0, 0, 0, 0, 0, 0, 1, 127, 128, 255, 0,
          0, 0, 0, 0, 0, 0, 0, 0, 0, 1] : List Nat).getD 4 0)).toNat + i) 0 ≤ 127)) :=
  C7_step_flags [0, 0, 0, 0, 0, 0, 1, 127, 128, 255, 0, 0, 0, 0, 0, 0, 0, 0, 0, 0, 1]
    3 _ [] (3 - 4 - 1 - 0 - 16) (by decide) (by decide)

/-- The head surviving `dropWhile (· == 0)` is not a zero byte. -/
theorem head_dropWhile_ne_zero :
    ∀ (l : List Nat) (x : Nat), (l.dropWhile (· == 0)).head? = some x → x ≠ 0 := by
  intro l
  induction l with
  | nil =>
    intro x h
    simp [List.dropWhile] at h
  | cons a tl ih =>
    intro x h
    rw [List.dropWhile_cons] at h
    by_cases ha : a = 0
    · rw [if_pos (by simpa using ha)] at h
      exact ih x h
    · rw [if_neg (by simpa using ha)] at h
      simp only [List.head?_cons, Option.some.injEq] at h
      omega

/-- `trimZeros` splits a list into an all-zero prefix, the trimmed middle
kept verbatim, and an all-zero suffix, with the middle starting and ending
in nonzero bytes. -/
theorem trimZeros_decomp (l : List Nat) :
    ∃ pre suf, l = pre ++ trimZeros l ++ suf ∧
      (∀ b ∈ pre, b = 0) ∧ (∀ b ∈ suf, b = 0) ∧
      (∀ x, (trimZeros l).head? = some x → x ≠ 0) ∧
      (∀ x, (trimZeros l).getLast? = some x → x ≠ 0) := by
  refine ⟨l.takeWhile (· == 0),
    ((l.dropWhile (· == 0)).reverse.takeWhile (· == 0)).reverse, ?_, ?_, ?_, ?_, ?_⟩
  · unfold trimZeros
    conv_lhs => rw [← List.takeWhile_append_dropWhile (p := (· == 0)) (l := l)]
    rw [List.append_assoc]
    congr 1
    conv_lhs => rw [← List.reverse_reverse (l.dropWhile (· == 0)),
      ← List.takeWhile_append_dropWhile (p := (· == 0))
        (l := (l.dropWhile (· == 0)).reverse)]
    rw [List.reverse_append]
  · intro b hb
    simpa using List.mem_takeWhile_imp hb
  · intro b hb
    rw [List.mem_reverse] at hb
    simpa using List.mem_takeWhile_imp hb
  · intro x hx
    unfold trimZeros at hx
    have hpref : (l.dropWhile (· == 0)).head? = some x := by
      have hsplit := List.takeWhile_append_dropWhile (p := (· == 0))
        (l := (l.dropWhile (· == 0)).reverse)
      have : l.dropWhile (· == 0) =
          ((l.dropWhile (· == 0)).reverse.dropWhile (· == 0)).reverse ++
          ((l.dropWhile (· == 0)).reverse.takeWhile (· == 0)).reverse := by
        conv_lhs => rw [← List.reverse_reverse (l.dropWhile (· == 0)), ← hsplit]
        rw [List.reverse_append]
      rw [this]
      rcases hmid : ((l.dropWhile (· == 0)).reverse.dropWhile (· == 0)).reverse with
        _ | ⟨a, tl⟩
      · rw [hmid] at hx
        simp at hx
      · rw [hmid] at hx
        simp only [List.head?_cons, Option.some.injEq] at hx
        simp [hx]
    exact head_dropWhile_ne_zero l x hpref
  · intro x hx
    unfold trimZeros at hx
    rw [List.getLast?_reverse] at hx
    exact head_dropWhile_ne_zero (l.dropWhile (· == 0)).reverse x hx

/-- **C6 (counterexample).** A version block beginning with a zero byte
followed by `"A"`: the claim says the leading zero byte (it precedes the
final run of zeros) is preserved, but `bytes.Trim` strips it too, so the
decoded version is `"A"`, not `"\x00A"`. -/
theorem C6_counterexample :
    readVersion ([0, 65] ++ List.replicate 30 0) = some ([65], []) ∧
    ([65] : List Nat) ≠ [0, 65] := by
  constructor
  · decide
  · decide

/-- **C6 (amended).** Version decoding reads the 32-byte block and removes
the leading and the trailing run of zero bytes (`bytes.Trim` trims both
ends): what remains is a contiguous, verbatim slice of the block that
starts and ends with a nonzero byte — embedded zeros strictly inside it
are preserved. -/
theorem C6_version_trim_amended (block rest : List Nat)
    (hb : block.length = 32) :
    ∃ pre suf,
      readVersion (block ++ rest) = some (trimZeros block, rest) ∧
      block = pre ++ trimZeros block ++ suf ∧
      (∀ b ∈ pre, b = 0) ∧ (∀ b ∈ suf, b = 0) ∧
      (∀ x, (trimZeros block).head? = some x → x ≠ 0) ∧
      (∀ x, (trimZeros block).getLast? = some x → x ≠ 0) := by
  obtain ⟨pre, suf, hsplit, hpre, hsuf, hhead, hlast⟩ := trimZeros_decomp block
  refine ⟨pre, suf, ?_, hsplit, hpre, hsuf, hhead, hlast⟩
  unfold readVersion
  have hne : ¬ (block ++ rest).isEmpty := by
    cases block
    · simp at hb
    · simp
  rw [if_neg hne, List.take_left' hb, List.drop_left' hb]
  have hpad : padZero 32 block = block := by
    simp [padZero, hb]
  rw [hpad]

/-- Witness for the amended C6 on the `"DRUM-MACHINE"`-style block
`[68, 1, 0, 2, 69]` padded with 27 trailing zeros. -/
theorem C6_version_trim_amended_w :
    ∃ pre suf,
      readVersion (([68, 1, 0, 2, 69] ++ List.replicate 27 0) ++ [7]) =
        some (trimZeros ([68, 1, 0, 2, 69] ++ List.replicate 27 0), [7]) ∧
      ([68, 1, 0, 2, 69] ++ List.replicate 27 0 : List Nat) =
        pre ++ trimZeros ([68, 1, 0, 2, 69] ++ List.replicate 27 0) ++ suf ∧
      (∀ b ∈ pre, b = 0) ∧ (∀ b ∈ suf, b = 0) ∧
      (∀ x, (trimZeros ([68, 1, 0, 2, 69] ++ List.replicate 27 0)).head? =
        some x → x ≠ 0) ∧
      (∀ x, (trimZeros ([68, 1, 0, 2, 69] ++ List.replicate 27 0)).getLast? =
        some x → x ≠ 0) :=
  C6_version_trim_amended ([68, 1, 0, 2, 69] ++ List.replicate 27 0) [7] (by decide)
